import Mathlib

/-
  Verification development for the thread_safe repository
  (include/thread_safe/queue.hpp, include/thread_safe/wait.hpp, src/wait.cpp).

  The C++ code is shallowly embedded as pure Lean functions:
  - `Queue<T>` state becomes the structure `QueueState`; the atomic
    `m_size` is derived as `queue.length` (updateStatus always sets
    `m_size = m_queue.size()`), and the stored `m_status` is kept as an
    explicit field so that staleness is representable.
  - blocking waits (`Wait::waitFor` with a predicate, used by
    `waitToPush` / `waitToPop`) are modelled by `waitRun`, which
    re-evaluates the condition-variable predicate at the start of the
    wait and after each wake-up event (gate open/close calls by other
    threads, each of which calls `m_wait.notify()`); `finite = true`
    means the deadline falls inside the modelled window (a timed wait
    that runs out of events times out), `finite = false` means the
    deadline has not been reached yet (running out of events leaves the
    waiter still blocked).
  - the discarded-elements callback is modelled by the `discarded` log:
    its entries are exactly the values the code passes to
    `m_discarded_callback`.
  - `m_queue.front()` on an empty deque (undefined behaviour in C++) is
    modelled by the explicit result `ub`.
-/

namespace ThreadSafe

/-- Queue::Status from queue.hpp. -/
inductive QStatus where
  | EMPTY
  | NORMAL
  | FULL
deriving DecidableEq, Repr

/-- Queue::Discard from queue.hpp. -/
inductive Discard where
  | DISCARD_OLDEST
  | DISCARD_NEWEST
  | NO_DISCARD
deriving DecidableEq, Repr

/-- Queue::Control from queue.hpp. -/
inductive Control where
  | PUSH
  | POP
  | FULL_CONTROL
  | NO_CONTROL
deriving DecidableEq, Repr

/-- Queue::Settings from queue.hpp: discard policy, control policy, capacity. -/
structure Settings where
  discard : Discard
  control : Control
  size : Nat
deriving DecidableEq, Repr

/-- The observable state of one Queue<T> instance.  `queue` is the deque
content (head first), `status` the stored `m_status`, `open_push` and
`open_pop` the gate flags, and `discarded` the log of values handed to the
discarded callback. -/
structure QueueState (α : Type) where
  settings : Settings
  queue : List α
  status : QStatus
  open_push : Bool
  open_pop : Bool
  discarded : List α
deriving DecidableEq, Repr

variable {α : Type}

/-- Queue::updateStatus status computation: size <= 0 gives EMPTY (checked
first, even when capacity is 0), size >= capacity gives FULL, else NORMAL. -/
def computeStatus (len cap : Nat) : QStatus :=
  if len = 0 then QStatus.EMPTY
  else if cap ≤ len then QStatus.FULL
  else QStatus.NORMAL

/-- Queue::pushControllable: control is FULL_CONTROL or PUSH. -/
def pushControllable (st : Settings) : Bool :=
  match st.control with
  | Control.FULL_CONTROL => true
  | Control.PUSH => true
  | _ => false

/-- Queue::popControllable: control is FULL_CONTROL or POP. -/
def popControllable (st : Settings) : Bool :=
  match st.control with
  | Control.FULL_CONTROL => true
  | Control.POP => true
  | _ => false

/-- Queue constructor: a side that is not controllable starts open; a
controllable side starts closed (the member initialisers set both flags to
false and the constructor body opens the uncontrollable ones). -/
def mkQueue (α : Type) (st : Settings) : QueueState α :=
  ⟨st, [], QStatus.EMPTY, !pushControllable st, !popControllable st, []⟩

/-- Queue::updateStatus: recompute the stored status from the current
buffer length and the configured capacity. -/
def updateStatus (s : QueueState α) : QueueState α :=
  { s with status := computeStatus s.queue.length s.settings.size }

/-- Queue::pushWithLock: append at the tail, then updateStatus. -/
def pushWithLock (s : QueueState α) (e : α) : QueueState α :=
  updateStatus { s with queue := s.queue ++ [e] }

/-- Queue::onDiscarded: invoke the discarded callback (modelled as a log). -/
def onDiscarded (s : QueueState α) (e : α) : QueueState α :=
  { s with discarded := s.discarded ++ [e] }

/-- Gate operations by other threads that can wake a blocked waiter
(each of openPush/closePush/openPop/closePop calls m_wait.notify()). -/
inductive GEvent where
  | openPushE
  | closePushE
  | openPopE
  | closePopE
deriving DecidableEq, Repr

/-- Effect of Queue::openPush / closePush / openPop / closePop: a no-op
unless the side is controllable, otherwise set the flag. -/
def applyGEvent (e : GEvent) (s : QueueState α) : QueueState α :=
  match e with
  | GEvent.openPushE =>
      if pushControllable s.settings then { s with open_push := true } else s
  | GEvent.closePushE =>
      if pushControllable s.settings then { s with open_push := false } else s
  | GEvent.openPopE =>
      if popControllable s.settings then { s with open_pop := true } else s
  | GEvent.closePopE =>
      if popControllable s.settings then { s with open_pop := false } else s

/-- Result of a condition-variable wait: woken with the predicate true,
timed out (deadline reached with the predicate false), or still blocked
(no deadline inside the modelled window). -/
inductive WaitRes (σ : Type) where
  | success (s : σ)
  | timedOut (s : σ)
  | blocked (s : σ)
deriving DecidableEq, Repr

/-- State carried inside a WaitRes. -/
def WaitRes.state {σ : Type} : WaitRes σ → σ
  | WaitRes.success s => s
  | WaitRes.timedOut s => s
  | WaitRes.blocked s => s

/-- A predicate-driven condition-variable wait: the predicate is checked
on entry and after every wake-up event; when the events run out the wait
either times out (`finite = true`) or remains blocked. -/
def waitRun {σ ε : Type} (pred : σ → Bool) (stepE : ε → σ → σ)
    (s : σ) (events : List ε) (finite : Bool) : WaitRes σ :=
  match events with
  | [] =>
      if pred s then WaitRes.success s
      else if finite then WaitRes.timedOut s else WaitRes.blocked s
  | e :: es =>
      if pred s then WaitRes.success s
      else waitRun pred stepE (stepE e s) es finite

/-- The wait predicate of Queue::waitToPush (queue.hpp lines 332-339):
true when the push gate is closed or the status is not FULL. -/
def closed_or_not_full_pred (s : QueueState α) : Bool :=
  if s.open_push = false ∨ s.status ≠ QStatus.FULL then true else false

/-- The wait predicate of Queue::waitToPop (queue.hpp lines 359-366).
Note the source reads `m_open_push` here, not `m_open_pop`. -/
def closed_or_not_empty_pred (s : QueueState α) : Bool :=
  if s.open_push = false ∨ s.status ≠ QStatus.EMPTY then true else false

/-- Outcome of waitToPush / waitToPop: go ahead with the mutation, fail
(return false), or still blocked in the wait. -/
inductive WRes (α : Type) where
  | proceed (s : QueueState α)
  | failed (s : QueueState α)
  | hang (s : QueueState α)
deriving DecidableEq, Repr

/-- Queue::waitToPush: fail when the push gate is closed; when FULL under
NO_DISCARD, wait on `closed_or_not_full_pred`; a non-SUCCESS wait result
or a closed push gate after the wait fails the push. -/
def waitToPush (s : QueueState α) (events : List GEvent) (finite : Bool) : WRes α :=
  if s.open_push = false then WRes.failed s
  else if s.status = QStatus.FULL ∧ s.settings.discard = Discard.NO_DISCARD then
    match waitRun closed_or_not_full_pred applyGEvent s events finite with
    | WaitRes.success s' =>
        if s'.open_push = false then WRes.failed s' else WRes.proceed s'
    | WaitRes.timedOut s' => WRes.failed s'
    | WaitRes.blocked s' => WRes.hang s'
  else WRes.proceed s

/-- Queue::waitToPop: fail when the pop gate is closed; when EMPTY, wait
on `closed_or_not_empty_pred`; a non-SUCCESS wait result or a closed pop
gate after the wait fails the pop. -/
def waitToPop (s : QueueState α) (events : List GEvent) (finite : Bool) : WRes α :=
  if s.open_pop = false then WRes.failed s
  else if s.status = QStatus.EMPTY then
    match waitRun closed_or_not_empty_pred applyGEvent s events finite with
    | WaitRes.success s' =>
        if s'.open_pop = false then WRes.failed s' else WRes.proceed s'
    | WaitRes.timedOut s' => WRes.failed s'
    | WaitRes.blocked s' => WRes.hang s'
  else WRes.proceed s

/-- Result of Queue::push: returned boolean plus resulting state, a push
still blocked in its wait, or undefined behaviour. -/
inductive PushRes (α : Type) where
  | ret (b : Bool) (s : QueueState α)
  | hang (s : QueueState α)
  | ub
deriving DecidableEq, Repr

/-- Result of Queue::pop: returned boolean, the popped value if any, and
the resulting state; or a blocked pop; or undefined behaviour
(m_queue.front() on an empty deque). -/
inductive PopRes (α : Type) where
  | ret (b : Bool) (v : Option α) (s : QueueState α)
  | hang (s : QueueState α)
  | ub
deriving DecidableEq, Repr

/-- Queue::push (queue.hpp lines 221-247).  After a successful wait, a
non-FULL queue takes the append branch; a FULL queue applies the discard
policy: DISCARD_NEWEST reports the incoming value discarded and fails;
DISCARD_OLDEST pops the head, reports it discarded and returns true (the
source never appends the incoming element in this branch); otherwise the
push fails. -/
def push (s : QueueState α) (e : α) (events : List GEvent) (finite : Bool) : PushRes α :=
  match waitToPush s events finite with
  | WRes.failed s' => PushRes.ret false s'
  | WRes.hang s' => PushRes.hang s'
  | WRes.proceed s' =>
      if s'.status ≠ QStatus.FULL then PushRes.ret true (pushWithLock s' e)
      else if s'.settings.discard = Discard.DISCARD_NEWEST then
        PushRes.ret false (onDiscarded s' e)
      else if s'.settings.discard = Discard.DISCARD_OLDEST then
        match s'.queue with
        | [] => PushRes.ub
        | d :: rest =>
            PushRes.ret true (onDiscarded (updateStatus { s' with queue := rest }) d)
      else PushRes.ret false s'

/-- Queue::pop (queue.hpp lines 250-258): after a successful wait, pop the
front of the buffer; the front of an empty buffer is undefined behaviour. -/
def pop (s : QueueState α) (events : List GEvent) (finite : Bool) : PopRes α :=
  match waitToPop s events finite with
  | WRes.failed s' => PopRes.ret false none s'
  | WRes.hang s' => PopRes.hang s'
  | WRes.proceed s' =>
      match s'.queue with
      | [] => PopRes.ub
      | v :: rest => PopRes.ret true (some v) (updateStatus { s' with queue := rest })

/-- One complete queue operation: a push or pop call (with the gate
operations that interleave with its wait) or a standalone gate call. -/
inductive Op (α : Type) where
  | pushOp (v : α) (events : List GEvent) (finite : Bool)
  | popOp (events : List GEvent) (finite : Bool)
  | gateOp (e : GEvent)
deriving DecidableEq, Repr

/-- Apply one operation to the queue state; `none` marks undefined
behaviour.  A push or pop that remains blocked leaves the state it was
blocked in (waits never mutate the buffer). -/
def stepOp (s : QueueState α) (op : Op α) : Option (QueueState α) :=
  match op with
  | Op.pushOp v events finite =>
      match push s v events finite with
      | PushRes.ret _ s' => some s'
      | PushRes.hang s' => some s'
      | PushRes.ub => none
  | Op.popOp events finite =>
      match pop s events finite with
      | PopRes.ret _ _ s' => some s'
      | PopRes.hang s' => some s'
      | PopRes.ub => none
  | Op.gateOp e => some (applyGEvent e s)

/-- Run a sequence of queue operations. -/
def runOps (s : QueueState α) (ops : List (Op α)) : Option (QueueState α) :=
  match ops with
  | [] => some s
  | op :: rest =>
      match stepOp s op with
      | some s' => runOps s' rest
      | none => none

/-- Run a sequence of queue operations, also collecting the values whose
push call returned true (in call order) and the values returned by
successful pops (in call order). -/
def runLog (s : QueueState α) (ops : List (Op α)) :
    Option (QueueState α × List α × List α) :=
  match ops with
  | [] => some (s, [], [])
  | Op.pushOp v events finite :: rest =>
      match push s v events finite with
      | PushRes.ret b s' =>
          match runLog s' rest with
          | some (sf, pl, ql) => some (sf, if b then v :: pl else pl, ql)
          | none => none
      | PushRes.hang s' => runLog s' rest
      | PushRes.ub => none
  | Op.popOp events finite :: rest =>
      match pop s events finite with
      | PopRes.ret _ v s' =>
          match runLog s' rest with
          | some (sf, pl, ql) =>
              some (sf, pl, match v with | some x => x :: ql | none => ql)
          | none => none
      | PopRes.hang s' => runLog s' rest
      | PopRes.ub => none
  | Op.gateOp e :: rest => runLog (applyGEvent e s) rest

/-
  Model of the shared static wait predicates.  In the source both
  `closed_or_not_full_pred` and `closed_or_not_empty_pred` are `static`
  lambdas capturing `this`: the capture is bound once, by the first
  Queue<T> instance that executes the line, and every later instance's
  wait re-evaluates the predicate over that first instance's flags and
  status.  `waitToPopShared` / `popShared` model a pop on `selfQ` whose
  wait predicate reads the distinct captured instance `captured`
  (whose state is not changed during the wait).
-/

/-- Queue::waitToPop when the static predicate was captured by another
instance: the condition-variable predicate reads `captured`, every other
check reads `selfQ`. -/
def waitToPopShared (selfQ captured : QueueState α) (finite : Bool) : WRes α :=
  if selfQ.open_pop = false then WRes.failed selfQ
  else if selfQ.status = QStatus.EMPTY then
    if closed_or_not_empty_pred captured then
      if selfQ.open_pop = false then WRes.failed selfQ else WRes.proceed selfQ
    else if finite then WRes.failed selfQ
    else WRes.hang selfQ
  else WRes.proceed selfQ

/-- Queue::pop when the static wait predicate was captured by another
instance. -/
def popShared (selfQ captured : QueueState α) (finite : Bool) : PopRes α :=
  match waitToPopShared selfQ captured finite with
  | WRes.failed s' => PopRes.ret false none s'
  | WRes.hang s' => PopRes.hang s'
  | WRes.proceed s' =>
      match s'.queue with
      | [] => PopRes.ub
      | v :: rest => PopRes.ret true (some v) (updateStatus { s' with queue := rest })

/-
  Model of the Wait class (wait.hpp / wait.cpp).
-/

/-- Wait::Status from wait.hpp. -/
inductive WaitStatus where
  | SUCCESS
  | TIMEOUT
  | EXIT
deriving DecidableEq, Repr

/-- State of one Wait instance: `exit_flag` is `m_exit`,
`internal_pred_flag` is `m_internal_pred_flag`. -/
structure WaitState where
  exit_flag : Bool
  internal_pred_flag : Bool
deriving DecidableEq, Repr

/-- Wait::isExit. -/
def isExit (s : WaitState) : Bool := s.exit_flag

/-- Wait::internalPred: true when the single-shot flag is clear. -/
def internalPred (s : WaitState) : Bool := !s.internal_pred_flag

/-- Wait::enableInternalPred: arm the single-shot flag. -/
def enableInternalPred (s : WaitState) : WaitState :=
  { s with internal_pred_flag := true }

/-- Wait::disableInternalPred: clear the single-shot flag. -/
def disableInternalPred (s : WaitState) : WaitState :=
  { s with internal_pred_flag := false }

/-- Wait::notify: clear the single-shot flag, then wake all waiters. -/
def notify (s : WaitState) : WaitState := disableInternalPred s

/-- Wait::exit: set the exit flag, then wake all waiters.  No member
function ever stores false into `m_exit`. -/
def exit (s : WaitState) : WaitState := { s with exit_flag := true }

/-- Happenings observed by a blocked waiter between its predicate checks:
a notify() call, an exit() call, or a spurious wake-up (which changes no
state). -/
inductive WEvent where
  | notifyE
  | exitE
  | spuriousE
deriving DecidableEq, Repr

/-- Effect of a wake-up event on the Wait state. -/
def applyW (e : WEvent) (s : WaitState) : WaitState :=
  match e with
  | WEvent.notifyE => notify s
  | WEvent.exitE => exit s
  | WEvent.spuriousE => s

/-- The public mutating entry points of Wait, for reasoning about what any
later sequence of calls can do to the state. -/
inductive WOp where
  | notifyOp
  | exitOp
  | enableOp
  | disableOp
deriving DecidableEq, Repr

/-- Apply one Wait member call to the state. -/
def applyWOp (o : WOp) (s : WaitState) : WaitState :=
  match o with
  | WOp.notifyOp => notify s
  | WOp.exitOp => exit s
  | WOp.enableOp => enableInternalPred s
  | WOp.disableOp => disableInternalPred s

/-- Wait::wait() (wait.cpp lines 49-60): arm the single-shot flag, block
until `isExit() || internalPred()`, then report EXIT before SUCCESS.
`none` models a call that is still blocked. -/
def wait (s : WaitState) (events : List WEvent) : Option WaitStatus :=
  match waitRun (fun t => isExit t || internalPred t) applyW
      (enableInternalPred s) events false with
  | WaitRes.success t => some (if isExit t then WaitStatus.EXIT else WaitStatus.SUCCESS)
  | WaitRes.timedOut _ => some WaitStatus.TIMEOUT
  | WaitRes.blocked _ => none

/-- Wait::wait(pred) (wait.hpp lines 151-162): block until
`isExit() || pred()`, then report EXIT before SUCCESS.  The user predicate
may read arbitrary external state of type E, which external events (the
`Sum.inr` case) may change while the waiter is blocked. -/
def waitPred {E : Type} (p : WaitState × E → Bool) (s : WaitState × E)
    (events : List (WEvent ⊕ (E → E))) : Option WaitStatus :=
  match waitRun (fun t => isExit t.1 || p t)
      (fun ev t =>
        match ev with
        | Sum.inl w => (applyW w t.1, t.2)
        | Sum.inr f => (t.1, f t.2))
      s events false with
  | WaitRes.success t => some (if isExit t.1 then WaitStatus.EXIT else WaitStatus.SUCCESS)
  | WaitRes.timedOut _ => some WaitStatus.TIMEOUT
  | WaitRes.blocked _ => none

/-- Wait::waitFor(timeout) (wait.hpp lines 164-180): arm the single-shot
flag before the wait begins, block up to the deadline on
`isExit() || internalPred()`; a false wait_for result is TIMEOUT, else
EXIT is checked before SUCCESS. -/
def waitFor (s : WaitState) (events : List WEvent) : WaitStatus :=
  match waitRun (fun t => isExit t || internalPred t) applyW
      (enableInternalPred s) events true with
  | WaitRes.success t => if isExit t then WaitStatus.EXIT else WaitStatus.SUCCESS
  | WaitRes.timedOut _ => WaitStatus.TIMEOUT
  | WaitRes.blocked _ => WaitStatus.TIMEOUT

/-- Wait::waitFor(timeout, pred) (wait.hpp lines 182-197): block up to the
deadline on `isExit() || pred()`; a false wait_for result is TIMEOUT, else
EXIT is checked before SUCCESS. -/
def waitForPred {E : Type} (p : WaitState × E → Bool) (s : WaitState × E)
    (events : List (WEvent ⊕ (E → E))) : WaitStatus :=
  match waitRun (fun t => isExit t.1 || p t)
      (fun ev t =>
        match ev with
        | Sum.inl w => (applyW w t.1, t.2)
        | Sum.inr f => (t.1, f t.2))
      s events true with
  | WaitRes.success t => if isExit t.1 then WaitStatus.EXIT else WaitStatus.SUCCESS
  | WaitRes.timedOut _ => WaitStatus.TIMEOUT
  | WaitRes.blocked _ => WaitStatus.TIMEOUT

/-
  Helper lemmas.
-/

/-- Gate calls touch only the gate flags. -/
theorem applyGEvent_fields (e : GEvent) (s : QueueState α) :
    (applyGEvent e s).queue = s.queue ∧ (applyGEvent e s).status = s.status ∧
    (applyGEvent e s).settings = s.settings ∧ (applyGEvent e s).discarded = s.discarded := by
  cases e <;> simp only [applyGEvent] <;> split <;> simp

/-- A wait whose wake-up events are gate calls leaves the buffer, status,
settings and discarded log unchanged, whatever its outcome. -/
theorem waitRun_gate_fields (p : QueueState α → Bool) (events : List GEvent)
    (s : QueueState α) (finite : Bool) :
    ((waitRun p applyGEvent s events finite).state.queue = s.queue ∧
     (waitRun p applyGEvent s events finite).state.status = s.status ∧
     (waitRun p applyGEvent s events finite).state.settings = s.settings ∧
     (waitRun p applyGEvent s events finite).state.discarded = s.discarded) := by
  induction events generalizing s with
  | nil =>
      simp only [waitRun]
      split
      · simp [WaitRes.state]
      · split <;> simp [WaitRes.state]
  | cons e es ih =>
      simp only [waitRun]
      split
      · simp [WaitRes.state]
      · obtain ⟨h1, h2, h3, h4⟩ := ih (applyGEvent e s)
        obtain ⟨g1, g2, g3, g4⟩ := applyGEvent_fields e s
        exact ⟨by rw [h1, g1], by rw [h2, g2], by rw [h3, g3], by rw [h4, g4]⟩

/-- A wait that ends in success ends with its predicate true. -/
theorem waitRun_success_pred {σ ε : Type} (p : σ → Bool) (stepE : ε → σ → σ)
    (events : List ε) (s s' : σ) (finite : Bool)
    (h : waitRun p stepE s events finite = WaitRes.success s') : p s' = true := by
  induction events generalizing s with
  | nil =>
      simp only [waitRun] at h
      split at h
      · cases h; assumption
      · split at h <;> cases h
  | cons e es ih =>
      simp only [waitRun] at h
      split at h
      · cases h; assumption
      · exact ih (stepE e s) h

/-- The state inside any waitToPush outcome agrees with the entry state on
the buffer, status, settings and discarded log. -/
theorem waitToPush_fields (s : QueueState α) (events : List GEvent) (finite : Bool) :
    ∀ t, (waitToPush s events finite = WRes.proceed t ∨
          waitToPush s events finite = WRes.failed t ∨
          waitToPush s events finite = WRes.hang t) →
      t.queue = s.queue ∧ t.status = s.status ∧
      t.settings = s.settings ∧ t.discarded = s.discarded := by
  intro t ht
  simp only [waitToPush] at ht
  split at ht
  · rcases ht with h | h | h <;> cases h <;> simp
  · split at ht
    · have hf := waitRun_gate_fields closed_or_not_full_pred events s finite
      rcases hw : waitRun closed_or_not_full_pred applyGEvent s events finite with
        s' | s' | s'
      all_goals rw [hw] at ht hf
      all_goals simp only [WaitRes.state] at hf
      · by_cases ho : s'.open_push = false
        · simp only [ho, if_pos rfl] at ht
          rcases ht with h | h | h <;> cases h <;> exact hf
        · simp only [if_neg ho] at ht
          rcases ht with h | h | h <;> cases h <;> exact hf
      · rcases ht with h | h | h <;> cases h <;> exact hf
      · rcases ht with h | h | h <;> cases h <;> exact hf
    · rcases ht with h | h | h <;> cases h <;> simp

/-- The state inside any waitToPop outcome agrees with the entry state on
the buffer, status, settings and discarded log. -/
theorem waitToPop_fields (s : QueueState α) (events : List GEvent) (finite : Bool) :
    ∀ t, (waitToPop s events finite = WRes.proceed t ∨
          waitToPop s events finite = WRes.failed t ∨
          waitToPop s events finite = WRes.hang t) →
      t.queue = s.queue ∧ t.status = s.status ∧
      t.settings = s.settings ∧ t.discarded = s.discarded := by
  intro t ht
  simp only [waitToPop] at ht
  split at ht
  · rcases ht with h | h | h <;> cases h <;> simp
  · split at ht
    · have hf := waitRun_gate_fields closed_or_not_empty_pred events s finite
      rcases hw : waitRun closed_or_not_empty_pred applyGEvent s events finite with
        s' | s' | s'
      all_goals rw [hw] at ht hf
      all_goals simp only [WaitRes.state] at hf
      · by_cases ho : s'.open_pop = false
        · simp only [ho, if_pos rfl] at ht
          rcases ht with h | h | h <;> cases h <;> exact hf
        · simp only [if_neg ho] at ht
          rcases ht with h | h | h <;> cases h <;> exact hf
      · rcases ht with h | h | h <;> cases h <;> exact hf
      · rcases ht with h | h | h <;> cases h <;> exact hf
    · rcases ht with h | h | h <;> cases h <;> simp

/-- The queue invariant: the stored status matches the buffer and the
buffer never holds more than max(capacity, 1) elements (capacity 0 still
admits one element because the empty-check of updateStatus wins). -/
def Inv (s : QueueState α) : Prop :=
  s.status = computeStatus s.queue.length s.settings.size ∧
  s.queue.length ≤ max s.settings.size 1

/-- A non-FULL computed status means the buffer is empty or strictly below
capacity. -/
theorem computeStatus_ne_full {len cap : Nat}
    (h : computeStatus len cap ≠ QStatus.FULL) : len = 0 ∨ len < cap := by
  by_cases h0 : len = 0
  · exact Or.inl h0
  · right
    by_cases hc : cap ≤ len
    · exact absurd (by simp [computeStatus, h0, hc]) h
    · omega

/-- updateStatus restores status consistency; the length bound is carried
over. -/
theorem updateStatus_inv (s : QueueState α)
    (h : s.queue.length ≤ max s.settings.size 1) : Inv (updateStatus s) := by
  exact ⟨rfl, h⟩

/-- Every single queue operation preserves the invariant and the settings,
unless it runs into undefined behaviour. -/
theorem stepOp_inv (s s' : QueueState α) (op : Op α)
    (hstep : stepOp s op = some s') (hinv : Inv s) :
    Inv s' ∧ s'.settings = s.settings := by
  obtain ⟨hcons, hlen⟩ := hinv
  cases op with
  | gateOp e =>
      simp only [stepOp] at hstep
      cases hstep
      obtain ⟨g1, g2, g3, g4⟩ := applyGEvent_fields e s
      exact ⟨⟨by rw [g1, g2, g3, hcons], by rw [g1, g3]; exact hlen⟩, g3⟩
  | pushOp v events finite =>
      simp only [stepOp] at hstep
      cases hp : push s v events finite with
      | ub => rw [hp] at hstep; cases hstep
      | hang t =>
        rw [hp] at hstep
        cases hstep
        simp only [push] at hp
        rcases hw : waitToPush s events finite with u | u | u <;> simp only [hw] at hp
        · split at hp
          · cases hp
          · split at hp
            · cases hp
            · split at hp
              · rcases hq : u.queue with _ | ⟨d, rest⟩ <;> simp only [hq] at hp <;> cases hp
              · cases hp
        · cases hp
        · cases hp
          obtain ⟨f1, f2, f3, f4⟩ := waitToPush_fields s events finite _ (Or.inr (Or.inr hw))
          exact ⟨⟨by rw [f1, f2, f3, hcons], by rw [f1, f3]; exact hlen⟩, f3⟩
      | ret b t =>
        rw [hp] at hstep
        cases hstep
        simp only [push] at hp
        rcases hw : waitToPush s events finite with u | u | u <;> simp only [hw] at hp
        · obtain ⟨f1, f2, f3, f4⟩ := waitToPush_fields s events finite u (Or.inl hw)
          split at hp
          · cases hp
            constructor
            · apply updateStatus_inv
              simp only [List.length_append, List.length_cons, List.length_nil, f1, f3]
              have hne : computeStatus s.queue.length s.settings.size ≠ QStatus.FULL := by
                rw [← hcons, ← f2]
                assumption
              rcases computeStatus_ne_full hne with h0 | hlt
              · rw [h0]
                simpa using le_max_right s.settings.size 1
              · exact le_trans (Nat.succ_le_of_lt hlt) (le_max_left _ _)
            · simp [pushWithLock, updateStatus, f3]
          · split at hp
            · cases hp
              exact ⟨⟨by simp [onDiscarded, f1, f2, f3, hcons],
                      by simp only [onDiscarded, f1, f3]; exact hlen⟩,
                     by simp [onDiscarded, f3]⟩
            · split at hp
              · rcases hq : u.queue with _ | ⟨d, rest⟩ <;> simp only [hq] at hp
                · cases hp
                · cases hp
                  constructor
                  · constructor
                    · simp [onDiscarded, updateStatus]
                    · simp only [onDiscarded, updateStatus]
                      have hr : s.queue.length = rest.length + 1 := by
                        rw [← f1, hq]; simp
                      simp only [f3]
                      exact le_trans (by omega) hlen
                  · simp [onDiscarded, updateStatus, f3]
              · cases hp
                exact ⟨⟨by rw [f1, f2, f3, hcons], by rw [f1, f3]; exact hlen⟩, f3⟩
        · cases hp
          obtain ⟨f1, f2, f3, f4⟩ := waitToPush_fields s events finite _ (Or.inr (Or.inl hw))
          exact ⟨⟨by rw [f1, f2, f3, hcons], by rw [f1, f3]; exact hlen⟩, f3⟩
        · cases hp
  | popOp events finite =>
      simp only [stepOp] at hstep
      cases hp : pop s events finite with
      | ub => rw [hp] at hstep; cases hstep
      | hang t =>
        rw [hp] at hstep
        cases hstep
        simp only [pop] at hp
        rcases hw : waitToPop s events finite with u | u | u <;> simp only [hw] at hp
        · rcases hq : u.queue with _ | ⟨x, rest⟩ <;> simp only [hq] at hp <;> cases hp
        · cases hp
        · cases hp
          obtain ⟨f1, f2, f3, f4⟩ := waitToPop_fields s events finite _ (Or.inr (Or.inr hw))
          exact ⟨⟨by rw [f1, f2, f3, hcons], by rw [f1, f3]; exact hlen⟩, f3⟩
      | ret b v t =>
        rw [hp] at hstep
        cases hstep
        simp only [pop] at hp
        rcases hw : waitToPop s events finite with u | u | u <;> simp only [hw] at hp
        · obtain ⟨f1, f2, f3, f4⟩ := waitToPop_fields s events finite u (Or.inl hw)
          rcases hq : u.queue with _ | ⟨x, rest⟩ <;> simp only [hq] at hp
          · cases hp
          · cases hp
            constructor
            · constructor
              · simp [updateStatus]
              · simp only [updateStatus]
                have hr : s.queue.length = rest.length + 1 := by
                  rw [← f1, hq]; simp
                simp only [f3]
                exact le_trans (by omega) hlen
            · simp [updateStatus, f3]
        · cases hp
          obtain ⟨f1, f2, f3, f4⟩ := waitToPop_fields s events finite _ (Or.inr (Or.inl hw))
          exact ⟨⟨by rw [f1, f2, f3, hcons], by rw [f1, f3]; exact hlen⟩, f3⟩
        · cases hp

/-- Running any operation sequence preserves the invariant and the
settings. -/
theorem runOps_inv (ops : List (Op α)) (s sf : QueueState α)
    (hrun : runOps s ops = some sf) (hinv : Inv s) :
    Inv sf ∧ sf.settings = s.settings := by
  induction ops generalizing s with
  | nil =>
      simp only [runOps] at hrun
      cases hrun
      exact ⟨hinv, rfl⟩
  | cons op rest ih =>
      simp only [runOps] at hrun
      rcases hs : stepOp s op with _ | s' <;> rw [hs] at hrun
      · cases hrun
      · obtain ⟨h1, h2⟩ := stepOp_inv s s' op hs hinv
        obtain ⟨h3, h4⟩ := ih s' hrun h1
        exact ⟨h3, by rw [h4, h2]⟩

/-- The possible outcomes of a returning push call: an append at the tail
(true), a plain failure (false, nothing changed), a DISCARD_NEWEST
failure (false, incoming value discarded), or a DISCARD_OLDEST head drop
(true, head discarded, incoming value never enqueued). -/
theorem push_ret_cases (s : QueueState α) (v : α) (events : List GEvent)
    (finite : Bool) (b : Bool) (t : QueueState α)
    (hp : push s v events finite = PushRes.ret b t) :
    (b = true ∧ t.queue = s.queue ++ [v] ∧ t.discarded = s.discarded) ∨
    (b = false ∧ t.queue = s.queue ∧ t.discarded = s.discarded) ∨
    (b = false ∧ t.queue = s.queue ∧ t.discarded = s.discarded ++ [v]) ∨
    (b = true ∧ ∃ d rest, s.queue = d :: rest ∧ t.queue = rest ∧
      t.discarded = s.discarded ++ [d]) := by
  simp only [push] at hp
  rcases hw : waitToPush s events finite with u | u | u <;> simp only [hw] at hp
  · obtain ⟨f1, f2, f3, f4⟩ := waitToPush_fields s events finite u (Or.inl hw)
    split at hp
    · cases hp
      exact Or.inl ⟨rfl, by simp [pushWithLock, updateStatus, f1], by simp [pushWithLock, updateStatus, f4]⟩
    · split at hp
      · cases hp
        exact Or.inr (Or.inr (Or.inl ⟨rfl, by simp [onDiscarded, f1], by simp [onDiscarded, f4]⟩))
      · split at hp
        · rcases hq : u.queue with _ | ⟨d, rest⟩ <;> simp only [hq] at hp
          · cases hp
          · cases hp
            refine Or.inr (Or.inr (Or.inr ⟨rfl, d, rest, by rw [← f1, hq], ?_, ?_⟩))
            · simp [onDiscarded, updateStatus]
            · simp [onDiscarded, updateStatus, f4]
        · cases hp
          exact Or.inr (Or.inl ⟨rfl, f1, f4⟩)
  · cases hp
    obtain ⟨f1, f2, f3, f4⟩ := waitToPush_fields s events finite _ (Or.inr (Or.inl hw))
    exact Or.inr (Or.inl ⟨rfl, f1, f4⟩)
  · cases hp

/-- A push still blocked in its wait has changed nothing but gate flags. -/
theorem push_hang_fields (s : QueueState α) (v : α) (events : List GEvent)
    (finite : Bool) (t : QueueState α)
    (hp : push s v events finite = PushRes.hang t) :
    t.queue = s.queue ∧ t.discarded = s.discarded := by
  simp only [push] at hp
  rcases hw : waitToPush s events finite with u | u | u <;> simp only [hw] at hp
  · split at hp
    · cases hp
    · split at hp
      · cases hp
      · split at hp
        · rcases hq : u.queue with _ | ⟨d, rest⟩ <;> simp only [hq] at hp <;> cases hp
        · cases hp
  · cases hp
  · cases hp
    obtain ⟨f1, f2, f3, f4⟩ := waitToPush_fields s events finite _ (Or.inr (Or.inr hw))
    exact ⟨f1, f4⟩

/-- The possible outcomes of a returning pop call: failure (nothing
changed) or removal of the head (true); a pop never discards. -/
theorem pop_ret_cases (s : QueueState α) (events : List GEvent)
    (finite : Bool) (b : Bool) (v : Option α) (t : QueueState α)
    (hp : pop s events finite = PopRes.ret b v t) :
    (b = false ∧ v = none ∧ t.queue = s.queue ∧ t.discarded = s.discarded) ∨
    (b = true ∧ ∃ x rest, s.queue = x :: rest ∧ v = some x ∧ t.queue = rest ∧
      t.discarded = s.discarded) := by
  simp only [pop] at hp
  rcases hw : waitToPop s events finite with u | u | u <;> simp only [hw] at hp
  · obtain ⟨f1, f2, f3, f4⟩ := waitToPop_fields s events finite u (Or.inl hw)
    rcases hq : u.queue with _ | ⟨x, rest⟩ <;> simp only [hq] at hp
    · cases hp
    · cases hp
      refine Or.inr ⟨rfl, x, rest, by rw [← f1, hq], rfl, ?_, ?_⟩
      · simp [updateStatus]
      · simp [updateStatus, f4]
  · cases hp
    obtain ⟨f1, f2, f3, f4⟩ := waitToPop_fields s events finite _ (Or.inr (Or.inl hw))
    exact Or.inl ⟨rfl, rfl, f1, f4⟩
  · cases hp

/-- A pop still blocked in its wait has changed nothing but gate flags. -/
theorem pop_hang_fields (s : QueueState α) (events : List GEvent)
    (finite : Bool) (t : QueueState α)
    (hp : pop s events finite = PopRes.hang t) :
    t.queue = s.queue ∧ t.discarded = s.discarded := by
  simp only [pop] at hp
  rcases hw : waitToPop s events finite with u | u | u <;> simp only [hw] at hp
  · rcases hq : u.queue with _ | ⟨x, rest⟩ <;> simp only [hq] at hp <;> cases hp
  · cases hp
  · cases hp
    obtain ⟨f1, f2, f3, f4⟩ := waitToPop_fields s events finite _ (Or.inr (Or.inr hw))
    exact ⟨f1, f4⟩

/-- The discarded log only ever grows along a run. -/
theorem runLog_discarded (ops : List (Op α)) (s sf : QueueState α)
    (pl ql : List α) (hrun : runLog s ops = some (sf, pl, ql)) :
    ∃ t, sf.discarded = s.discarded ++ t := by
  induction ops generalizing s pl ql with
  | nil =>
      simp only [runLog] at hrun
      cases hrun
      exact ⟨[], by simp⟩
  | cons op rest ih =>
      cases op with
      | pushOp v events finite =>
          simp only [runLog] at hrun
          cases hp : push s v events finite with
          | ub => simp only [hp] at hrun; cases hrun
          | hang u =>
              simp only [hp] at hrun
              obtain ⟨h1, h2⟩ := push_hang_fields s v events finite u hp
              obtain ⟨t, ht⟩ := ih u _ _ hrun
              exact ⟨t, by rw [ht, h2]⟩
          | ret b u =>
              simp only [hp] at hrun
              rcases hr : runLog u rest with _ | ⟨sf', pl', ql'⟩ <;> simp only [hr] at hrun
              · cases hrun
              · cases hrun
                obtain ⟨t, ht⟩ := ih u _ _ hr
                rcases push_ret_cases s v events finite b u hp with
                  ⟨_, _, hd⟩ | ⟨_, _, hd⟩ | ⟨_, _, hd⟩ | ⟨_, d, drest, _, _, hd⟩
                · exact ⟨t, by rw [ht, hd]⟩
                · exact ⟨t, by rw [ht, hd]⟩
                · exact ⟨[v] ++ t, by rw [ht, hd, List.append_assoc]⟩
                · exact ⟨[d] ++ t, by rw [ht, hd, List.append_assoc]⟩
      | popOp events finite =>
          simp only [runLog] at hrun
          cases hp : pop s events finite with
          | ub => simp only [hp] at hrun; cases hrun
          | hang u =>
              simp only [hp] at hrun
              obtain ⟨h1, h2⟩ := pop_hang_fields s events finite u hp
              obtain ⟨t, ht⟩ := ih u _ _ hrun
              exact ⟨t, by rw [ht, h2]⟩
          | ret b v u =>
              simp only [hp] at hrun
              rcases hr : runLog u rest with _ | ⟨sf', pl', ql'⟩ <;> simp only [hr] at hrun
              · cases hrun
              · cases hrun
                obtain ⟨t, ht⟩ := ih u _ _ hr
                rcases pop_ret_cases s events finite b v u hp with
                  ⟨_, _, _, hd⟩ | ⟨_, x, xrest, _, _, _, hd⟩
                · exact ⟨t, by rw [ht, hd]⟩
                · exact ⟨t, by rw [ht, hd]⟩
      | gateOp e =>
          simp only [runLog] at hrun
          obtain ⟨g1, g2, g3, g4⟩ := applyGEvent_fields e s
          obtain ⟨t, ht⟩ := ih (applyGEvent e s) _ _ hrun
          exact ⟨t, by rw [ht, g4]⟩

/-- FIFO run invariant: along any run in which no element is discarded,
the popped values followed by the final buffer equal the initial buffer
followed by the successfully pushed values. -/
theorem runLog_fifo (ops : List (Op α)) (s sf : QueueState α)
    (pl ql : List α) (hrun : runLog s ops = some (sf, pl, ql))
    (hnd : sf.discarded = s.discarded) :
    ql ++ sf.queue = s.queue ++ pl := by
  induction ops generalizing s pl ql with
  | nil =>
      simp only [runLog] at hrun
      cases hrun
      simp
  | cons op rest ih =>
      cases op with
      | pushOp v events finite =>
          simp only [runLog] at hrun
          cases hp : push s v events finite with
          | ub => simp only [hp] at hrun; cases hrun
          | hang u =>
              simp only [hp] at hrun
              obtain ⟨h1, h2⟩ := push_hang_fields s v events finite u hp
              have := ih u _ _ hrun (by rw [hnd, h2])
              rw [this, h1]
          | ret b u =>
              simp only [hp] at hrun
              rcases hr : runLog u rest with _ | ⟨sf', pl', ql'⟩ <;> simp only [hr] at hrun
              · cases hrun
              · cases hrun
                obtain ⟨t, ht⟩ := runLog_discarded rest u sf _ _ hr
                rcases push_ret_cases s v events finite b u hp with
                  ⟨hb, hque, hd⟩ | ⟨hb, hque, hd⟩ | ⟨hb, hque, hd⟩ | ⟨hb, d, drest, hsq, hque, hd⟩
                · have hfs := ih u _ _ hr (by rw [hnd, hd])
                  subst hb
                  simp only [if_pos rfl]
                  rw [hfs, hque, List.append_assoc]
                  simp
                · have hfs := ih u _ _ hr (by rw [hnd, hd])
                  subst hb
                  rw [if_neg (by simp), hfs, hque]
                · exfalso
                  rw [hnd, hd] at ht
                  have hlen2 := congrArg List.length ht
                  simp only [List.length_append, List.length_cons, List.length_nil] at hlen2
                  omega
                · exfalso
                  rw [hnd, hd] at ht
                  have hlen2 := congrArg List.length ht
                  simp only [List.length_append, List.length_cons, List.length_nil] at hlen2
                  omega
      | popOp events finite =>
          simp only [runLog] at hrun
          cases hp : pop s events finite with
          | ub => simp only [hp] at hrun; cases hrun
          | hang u =>
              simp only [hp] at hrun
              obtain ⟨h1, h2⟩ := pop_hang_fields s events finite u hp
              have := ih u _ _ hrun (by rw [hnd, h2])
              rw [this, h1]
          | ret b v u =>
              simp only [hp] at hrun
              rcases hr : runLog u rest with _ | ⟨sf', pl', ql'⟩ <;> simp only [hr] at hrun
              · cases hrun
              · cases hrun
                rcases pop_ret_cases s events finite b v u hp with
                  ⟨hb, hv, hque, hd⟩ | ⟨hb, x, xrest, hsq, hv, hque, hd⟩
                · have hfs := ih u _ _ hr (by rw [hnd, hd])
                  subst hv
                  rw [hfs, hque]
                · have hfs := ih u _ _ hr (by rw [hnd, hd])
                  subst hv
                  rw [hsq]
                  simp only [List.cons_append]
                  rw [hfs, hque]
      | gateOp e =>
          simp only [runLog] at hrun
          obtain ⟨g1, g2, g3, g4⟩ := applyGEvent_fields e s
          have := ih (applyGEvent e s) _ _ hrun (by rw [hnd, g4])
          rw [this, g1]

/-- A wait whose predicate already holds wakes immediately. -/
theorem waitRun_pred_true {σ ε : Type} (p : σ → Bool) (stepE : ε → σ → σ)
    (s : σ) (events : List ε) (finite : Bool) (h : p s = true) :
    waitRun p stepE s events finite = WaitRes.success s := by
  cases events <;> simp [waitRun, h]

/-- A timed wait never reports `blocked`. -/
theorem waitRun_finite_not_blocked {σ ε : Type} (p : σ → Bool) (stepE : ε → σ → σ)
    (events : List ε) (s t : σ)
    (h : waitRun p stepE s events true = WaitRes.blocked t) : False := by
  induction events generalizing s with
  | nil =>
      simp only [waitRun] at h
      split at h
      · cases h
      · cases h
  | cons e es ih =>
      simp only [waitRun] at h
      split at h
      · cases h
      · exact ih (stepE e s) h

/-- Every Wait member call keeps a set exit flag set: nothing ever stores
false into `m_exit`. -/
theorem applyWOp_keeps_exit (o : WOp) (s : WaitState) (h : isExit s = true) :
    isExit (applyWOp o s) = true := by
  cases o <;>
    simp only [applyWOp, notify, exit, enableInternalPred, disableInternalPred, isExit] at * <;>
    exact h

/-- Any sequence of Wait member calls after exit leaves the exit flag set. -/
theorem foldl_applyWOp_keeps_exit (ops : List WOp) (s : WaitState)
    (h : isExit s = true) :
    isExit (List.foldl (fun t o => applyWOp o t) s ops) = true := by
  induction ops generalizing s with
  | nil => exact h
  | cons o rest ih => exact ih (applyWOp o s) (applyWOp_keeps_exit o s h)

/-- Wait::wait() on an exited gate returns EXIT immediately. -/
theorem wait_exit (s : WaitState) (events : List WEvent) (h : isExit s = true) :
    wait s events = some WaitStatus.EXIT := by
  simp only [isExit] at h
  cases events <;>
    simp [wait, waitRun, isExit, internalPred, enableInternalPred, h]

/-- Wait::wait(pred) on an exited gate returns EXIT immediately, for every
user predicate and every environment. -/
theorem waitPred_exit {E : Type} (p : WaitState × E → Bool) (s : WaitState × E)
    (events : List (WEvent ⊕ (E → E))) (h : isExit s.1 = true) :
    waitPred p s events = some WaitStatus.EXIT := by
  simp only [isExit] at h
  cases events <;> simp [waitPred, waitRun, isExit, h]

/-- Wait::waitFor(timeout) on an exited gate returns EXIT immediately. -/
theorem waitFor_exit (s : WaitState) (events : List WEvent) (h : isExit s = true) :
    waitFor s events = WaitStatus.EXIT := by
  simp only [isExit] at h
  cases events <;>
    simp [waitFor, waitRun, isExit, internalPred, enableInternalPred, h]

/-- Wait::waitFor(timeout, pred) on an exited gate returns EXIT
immediately, for every user predicate and every environment. -/
theorem waitForPred_exit {E : Type} (p : WaitState × E → Bool) (s : WaitState × E)
    (events : List (WEvent ⊕ (E → E))) (h : isExit s.1 = true) :
    waitForPred p s events = WaitStatus.EXIT := by
  simp only [isExit] at h
  cases events <;> simp [waitForPred, waitRun, isExit, h]

/-- The armed no-predicate wait loop wakes in the cleared-flag state as
soon as a notify arrives, provided no exit interferes. -/
theorem waitRun_internal_notified (events : List WEvent) (s : WaitState)
    (hx : s.exit_flag = false) (hflag : s.internal_pred_flag = true)
    (hne : WEvent.exitE ∉ events) (hmem : WEvent.notifyE ∈ events) :
    waitRun (fun t => isExit t || internalPred t) applyW s events true =
      WaitRes.success ⟨false, false⟩ := by
  induction events generalizing s with
  | nil => cases hmem
  | cons e es ih =>
      have hpred : (isExit s || internalPred s) = false := by
        simp [isExit, internalPred, hx, hflag]
      cases e with
      | notifyE =>
          simp only [waitRun, hpred, if_neg Bool.false_ne_true]
          have : applyW WEvent.notifyE s = ⟨s.exit_flag, false⟩ := rfl
          rw [this, hx]
          exact waitRun_pred_true _ _ _ _ _ (by simp [isExit, internalPred])
      | exitE =>
          exact absurd (List.mem_cons_self _ _) hne
      | spuriousE =>
          simp only [waitRun, hpred, if_neg Bool.false_ne_true]
          have hm : WEvent.notifyE ∈ es := by
            rcases List.mem_cons.mp hmem with h | h
            · cases h
            · exact h
          exact ih s hx hflag (fun hc => hne (List.mem_cons_of_mem _ hc)) hm

/-- The armed no-predicate wait loop times out when neither notify nor
exit arrives before the deadline. -/
theorem waitRun_internal_timeout (events : List WEvent) (s : WaitState)
    (hx : s.exit_flag = false) (hflag : s.internal_pred_flag = true)
    (hne : WEvent.exitE ∉ events) (hnn : WEvent.notifyE ∉ events) :
    waitRun (fun t => isExit t || internalPred t) applyW s events true =
      WaitRes.timedOut s := by
  induction events generalizing s with
  | nil =>
      simp [waitRun, isExit, internalPred, hx, hflag]
  | cons e es ih =>
      have hpred : (isExit s || internalPred s) = false := by
        simp [isExit, internalPred, hx, hflag]
      cases e with
      | notifyE => exact absurd (List.mem_cons_self _ _) hnn
      | exitE => exact absurd (List.mem_cons_self _ _) hne
      | spuriousE =>
          simp only [waitRun, hpred, if_neg Bool.false_ne_true]
          exact ih s hx hflag (fun hc => hne (List.mem_cons_of_mem _ hc))
            (fun hc => hnn (List.mem_cons_of_mem _ hc))

/-- A timed waitToPush never leaves the caller blocked. -/
theorem waitToPush_no_hang (s u : QueueState α) (events : List GEvent)
    (hw : waitToPush s events true = WRes.hang u) : False := by
  simp only [waitToPush] at hw
  split at hw
  · cases hw
  · split at hw
    · rcases hww : waitRun closed_or_not_full_pred applyGEvent s events true with
        s' | s' | s' <;> simp only [hww] at hw
      · split at hw <;> cases hw
      · cases hw
      · exact waitRun_finite_not_blocked _ _ _ _ _ hww
    · cases hw

/-- When a full NO_DISCARD queue with an open push gate waits, a proceed
outcome is impossible with only gate interference: the wait predicate can
only become true by the gate closing, which fails the push instead. -/
theorem waitToPush_full_no_proceed (s u : QueueState α) (events : List GEvent)
    (finite : Bool) (hop : s.open_push = true) (hfull : s.status = QStatus.FULL)
    (hnd : s.settings.discard = Discard.NO_DISCARD)
    (hw : waitToPush s events finite = WRes.proceed u) : False := by
  simp only [waitToPush, hop] at hw
  rw [if_neg (by simp)] at hw
  rw [if_pos ⟨hfull, hnd⟩] at hw
  rcases hww : waitRun closed_or_not_full_pred applyGEvent s events finite with
    s' | s' | s' <;> simp only [hww] at hw
  · have hpred := waitRun_success_pred closed_or_not_full_pred applyGEvent events s s' finite hww
    have hfields := waitRun_gate_fields closed_or_not_full_pred events s finite
    rw [hww] at hfields
    simp only [WaitRes.state] at hfields
    obtain ⟨hq, hst, hse, hd⟩ := hfields
    by_cases ho : s'.open_push = false
    · rw [if_pos ho] at hw
      cases hw
    · rw [if_neg ho] at hw
      simp only [closed_or_not_full_pred] at hpred
      rw [hst, hfull] at hpred
      have hcond : ¬(s'.open_push = false ∨ QStatus.FULL ≠ QStatus.FULL) := by
        rintro (h | h)
        · exact ho h
        · exact h rfl
      rw [if_neg hcond] at hpred
      cases hpred
  · cases hw
  · cases hw

/-
  Claim theorems.
-/

/-- C5: exit() sets the exit flag permanently (idempotent, and no Wait
member call ever resets it), and after exit() every subsequent call to any
wait variant — wait(), wait(pred), waitFor(timeout), waitFor(timeout,
pred) — returns the Exit outcome, never Success or Timeout, with the exit
condition checked before the success condition (the EXIT result stands
whatever the user predicate or the internal flag say). -/
theorem c5_exit_terminal :
    (∀ s : WaitState, exit (exit s) = exit s) ∧
    (∀ (s : WaitState) (ops : List WOp),
      isExit (List.foldl (fun t o => applyWOp o t) (exit s) ops) = true) ∧
    (∀ (s : WaitState) (ops : List WOp) (events : List WEvent),
      wait (List.foldl (fun t o => applyWOp o t) (exit s) ops) events =
        some WaitStatus.EXIT) ∧
    (∀ (E : Type) (p : WaitState × E → Bool) (s : WaitState) (ops : List WOp)
      (env : E) (events : List (WEvent ⊕ (E → E))),
      waitPred p (List.foldl (fun t o => applyWOp o t) (exit s) ops, env) events =
        some WaitStatus.EXIT) ∧
    (∀ (s : WaitState) (ops : List WOp) (events : List WEvent),
      waitFor (List.foldl (fun t o => applyWOp o t) (exit s) ops) events =
        WaitStatus.EXIT) ∧
    (∀ (E : Type) (p : WaitState × E → Bool) (s : WaitState) (ops : List WOp)
      (env : E) (events : List (WEvent ⊕ (E → E))),
      waitForPred p (List.foldl (fun t o => applyWOp o t) (exit s) ops, env) events =
        WaitStatus.EXIT) := by
  refine ⟨?_, ?_, ?_, ?_, ?_, ?_⟩
  · intro s
    simp [exit]
  · intro s ops
    exact foldl_applyWOp_keeps_exit ops (exit s) rfl
  · intro s ops events
    exact wait_exit _ events (foldl_applyWOp_keeps_exit ops (exit s) rfl)
  · intro E p s ops env events
    exact waitPred_exit p _ events (foldl_applyWOp_keeps_exit ops (exit s) rfl)
  · intro s ops events
    exact waitFor_exit _ events (foldl_applyWOp_keeps_exit ops (exit s) rfl)
  · intro E p s ops env events
    exact waitForPred_exit p _ events (foldl_applyWOp_keeps_exit ops (exit s) rfl)

/-- C6: waitFor(timeout) without an explicit predicate uses the internal
single-shot flag as its implicit predicate: notify() always clears the
flag before waking waiters, the flag is armed when the wait begins (the
outcome does not depend on the flag value the call starts with), and the
call returns Exit when the exit flag is already set, Success when a
notify (and no exit) arrives before the deadline, and Timeout when the
deadline passes with no notify and no exit (spurious wake-ups do not
produce a false Success). -/
theorem c6_waitFor_internal_flag :
    (∀ t : WaitState, (notify t).internal_pred_flag = false) ∧
    (∀ (s : WaitState) (b : Bool) (events : List WEvent),
      waitFor { s with internal_pred_flag := b } events = waitFor s events) ∧
    (∀ (f : Bool) (events : List WEvent),
      waitFor ⟨true, f⟩ events = WaitStatus.EXIT) ∧
    (∀ (f : Bool) (events : List WEvent), WEvent.exitE ∉ events →
      WEvent.notifyE ∈ events → waitFor ⟨false, f⟩ events = WaitStatus.SUCCESS) ∧
    (∀ (f : Bool) (events : List WEvent), WEvent.exitE ∉ events →
      WEvent.notifyE ∉ events → waitFor ⟨false, f⟩ events = WaitStatus.TIMEOUT) := by
  refine ⟨?_, ?_, ?_, ?_, ?_⟩
  · intro t
    rfl
  · intro s b events
    rfl
  · intro f events
    exact waitFor_exit ⟨true, f⟩ events rfl
  · intro f events hne hmem
    simp only [waitFor, enableInternalPred]
    rw [waitRun_internal_notified events ⟨false, true⟩ rfl rfl hne hmem]
    simp [isExit]
  · intro f events hne hnn
    simp only [waitFor, enableInternalPred]
    rw [waitRun_internal_timeout events ⟨false, true⟩ rfl rfl hne hnn]

/-- Witness for C6 at concrete inputs: a spurious wake followed by a
notify yields Success; a lone spurious wake before the deadline yields
Timeout. -/
theorem c6_waitFor_internal_flag_witness :
    waitFor ⟨false, false⟩ [WEvent.spuriousE, WEvent.notifyE] = WaitStatus.SUCCESS ∧
    waitFor ⟨false, true⟩ [WEvent.spuriousE] = WaitStatus.TIMEOUT :=
  ⟨c6_waitFor_internal_flag.2.2.2.1 false [WEvent.spuriousE, WEvent.notifyE]
      (by decide) (by decide),
   c6_waitFor_internal_flag.2.2.2.2 true [WEvent.spuriousE]
      (by decide) (by decide)⟩

/-- C1: in the capacity-2 DiscardOldest scenario push(1), push(2),
push(3), the code fires the discard callback with 1 and returns true, but
it never appends 3: the buffer afterwards is [2] (size 1, not 2), the
first pop returns 2, and the second pop fails instead of returning 3 —
the claimed behaviour (remove head, report it, append the new value, size
stays K) does not hold. -/
theorem c1_discard_oldest_drops_new_element :
    runOps (mkQueue Nat ⟨Discard.DISCARD_OLDEST, Control.NO_CONTROL, 2⟩)
        [Op.pushOp 1 [] true, Op.pushOp 2 [] true, Op.pushOp 3 [] true] =
      some ⟨⟨Discard.DISCARD_OLDEST, Control.NO_CONTROL, 2⟩, [2],
        QStatus.NORMAL, true, true, [1]⟩ ∧
    pop (⟨⟨Discard.DISCARD_OLDEST, Control.NO_CONTROL, 2⟩, [2],
        QStatus.NORMAL, true, true, [1]⟩ : QueueState Nat) [] true =
      PopRes.ret true (some 2) ⟨⟨Discard.DISCARD_OLDEST, Control.NO_CONTROL, 2⟩,
        [], QStatus.EMPTY, true, true, [1]⟩ ∧
    pop (⟨⟨Discard.DISCARD_OLDEST, Control.NO_CONTROL, 2⟩, [],
        QStatus.EMPTY, true, true, [1]⟩ : QueueState Nat) [] true =
      PopRes.ret false none ⟨⟨Discard.DISCARD_OLDEST, Control.NO_CONTROL, 2⟩,
        [], QStatus.EMPTY, true, true, [1]⟩ :=
  ⟨rfl, rfl, rfl⟩

/-- C2: a pop blocked on an empty queue whose pop gate is open is NOT
unblocked by closePop(): the wait predicate in the source reads
m_open_push instead of m_open_pop, so after closePop the code predicate is
still false (the waiter stays blocked, conjunct 2) even though the pop
gate is closed (conjunct 4) and the claimed wake-up condition
"(!popOpen) || status != Empty" holds (conjunct 3 shows the code predicate
disagrees with it). -/
theorem c2_close_pop_does_not_unblock :
    runOps (mkQueue Nat ⟨Discard.NO_DISCARD, Control.POP, 10⟩)
        [Op.gateOp GEvent.openPopE] =
      some ⟨⟨Discard.NO_DISCARD, Control.POP, 10⟩, [], QStatus.EMPTY,
        true, true, []⟩ ∧
    pop (⟨⟨Discard.NO_DISCARD, Control.POP, 10⟩, [], QStatus.EMPTY,
        true, true, []⟩ : QueueState Nat) [GEvent.closePopE] false =
      PopRes.hang ⟨⟨Discard.NO_DISCARD, Control.POP, 10⟩, [], QStatus.EMPTY,
        true, false, []⟩ ∧
    closed_or_not_empty_pred (⟨⟨Discard.NO_DISCARD, Control.POP, 10⟩, [],
        QStatus.EMPTY, true, false, []⟩ : QueueState Nat) = false ∧
    (⟨⟨Discard.NO_DISCARD, Control.POP, 10⟩, [], QStatus.EMPTY,
        true, false, []⟩ : QueueState Nat).open_pop = false :=
  ⟨rfl, rfl, rfl, rfl⟩

/-- C3 as stated is false for capacity 0: a single push into a queue
configured with capacity 0 succeeds (the empty-check of updateStatus wins
over the full-check) and leaves one element, so the size exceeds the
configured capacity. -/
theorem c3_capacity_counterexample :
    runOps (mkQueue Nat ⟨Discard.NO_DISCARD, Control.NO_CONTROL, 0⟩)
        [Op.pushOp 5 [] true] =
      some ⟨⟨Discard.NO_DISCARD, Control.NO_CONTROL, 0⟩, [5], QStatus.FULL,
        true, true, []⟩ ∧
    ¬((⟨⟨Discard.NO_DISCARD, Control.NO_CONTROL, 0⟩, [5], QStatus.FULL,
        true, true, []⟩ : QueueState Nat).queue.length ≤
      (⟨Discard.NO_DISCARD, Control.NO_CONTROL, 0⟩ : Settings).size) :=
  ⟨rfl, by decide⟩

/-- C3 amended: for every configured capacity of at least 1 and every
sequence of push, pop and gate operations from a fresh queue, the buffer
length never exceeds the configured capacity (for capacity 0 the bound is
max(capacity, 1) = 1 instead). -/
theorem c3_capacity_invariant (α : Type) (st : Settings) (ops : List (Op α))
    (sf : QueueState α) (hcap : 1 ≤ st.size)
    (hrun : runOps (mkQueue α st) ops = some sf) :
    sf.queue.length ≤ st.size := by
  have hinv : Inv (mkQueue α st) := by
    constructor
    · simp [mkQueue, computeStatus]
    · simp [mkQueue]
  obtain ⟨⟨hc, hl⟩, hs⟩ := runOps_inv ops _ sf hrun hinv
  have hset : sf.settings = st := by
    rw [hs]
    rfl
  rw [hset] at hl
  rw [max_eq_left hcap] at hl
  exact hl

/-- Witness for C3 amended: capacity 1, push 7 (succeeds), push 8 (fails
full); the final buffer holds one element, within capacity. -/
theorem c3_capacity_invariant_witness :
    (⟨⟨Discard.NO_DISCARD, Control.NO_CONTROL, 1⟩, [7], QStatus.FULL,
        true, true, []⟩ : QueueState Nat).queue.length ≤
      (⟨Discard.NO_DISCARD, Control.NO_CONTROL, 1⟩ : Settings).size :=
  c3_capacity_invariant Nat ⟨Discard.NO_DISCARD, Control.NO_CONTROL, 1⟩
    [Op.pushOp 7 [] true, Op.pushOp 8 [] true]
    ⟨⟨Discard.NO_DISCARD, Control.NO_CONTROL, 1⟩, [7], QStatus.FULL,
      true, true, []⟩ (by decide) rfl

/-- C4: the wait predicates are static lambdas, bound to the first
instance that executes them, not per-call closures.  With the predicate
captured by instance A, the outcome of a pop on instance B depends on A's
gate state alone: with A's push gate closed, B's pop on its empty buffer
sails through the wait and hits the front of an empty deque (ub); with A's
push gate open, the same pop on the identical B times out and returns
false.  Two-run noninterference across instances fails. -/
theorem c4_static_predicate_interference :
    popShared (mkQueue Nat ⟨Discard.NO_DISCARD, Control.NO_CONTROL, 10⟩)
        (mkQueue Nat ⟨Discard.NO_DISCARD, Control.PUSH, 10⟩) true = PopRes.ub ∧
    popShared (mkQueue Nat ⟨Discard.NO_DISCARD, Control.NO_CONTROL, 10⟩)
        (applyGEvent GEvent.openPushE
          (mkQueue Nat ⟨Discard.NO_DISCARD, Control.PUSH, 10⟩)) true =
      PopRes.ret false none (mkQueue Nat ⟨Discard.NO_DISCARD, Control.NO_CONTROL, 10⟩) ∧
    popShared (mkQueue Nat ⟨Discard.NO_DISCARD, Control.NO_CONTROL, 10⟩)
        (mkQueue Nat ⟨Discard.NO_DISCARD, Control.PUSH, 10⟩) true ≠
      popShared (mkQueue Nat ⟨Discard.NO_DISCARD, Control.NO_CONTROL, 10⟩)
        (applyGEvent GEvent.openPushE
          (mkQueue Nat ⟨Discard.NO_DISCARD, Control.PUSH, 10⟩)) true :=
  ⟨rfl, rfl, by decide⟩

/-- C7: FIFO — for every run from a fresh queue in which no element is
discarded, the successful pops return exactly the successfully pushed
values, in push order (the pop log followed by the remaining buffer is the
push log). -/
theorem c7_fifo_order (α : Type) (st : Settings) (ops : List (Op α))
    (sf : QueueState α) (pl ql : List α)
    (hrun : runLog (mkQueue α st) ops = some (sf, pl, ql))
    (hnd : sf.discarded = []) :
    ql ++ sf.queue = pl := by
  have h := runLog_fifo ops (mkQueue α st) sf pl ql hrun (by simpa [mkQueue] using hnd)
  simpa [mkQueue] using h

/-- Witness for C7: push 10, push 20, pop, pop on a capacity-3 queue pops
10 then 20, matching push order. -/
theorem c7_fifo_order_witness : ([10, 20] : List Nat) ++ [] = [10, 20] :=
  c7_fifo_order Nat ⟨Discard.NO_DISCARD, Control.NO_CONTROL, 3⟩
    [Op.pushOp 10 [] true, Op.pushOp 20 [] true, Op.popOp [] true, Op.popOp [] true]
    ⟨⟨Discard.NO_DISCARD, Control.NO_CONTROL, 3⟩, [], QStatus.EMPTY,
      true, true, []⟩ [10, 20] [10, 20] rfl rfl

/-- C8: a push into a Full, push-open queue with policy DiscardNewest
reports the incoming value to the discard callback, leaves the buffer
unchanged, and returns false. -/
theorem c8_discard_newest_rejects_incoming (s : QueueState α) (v : α)
    (events : List GEvent) (finite : Bool) (hop : s.open_push = true)
    (hfull : s.status = QStatus.FULL)
    (hdn : s.settings.discard = Discard.DISCARD_NEWEST) :
    push s v events finite = PushRes.ret false (onDiscarded s v) ∧
    (onDiscarded s v).queue = s.queue := by
  constructor
  · simp [push, waitToPush, hop, hfull, hdn]
  · simp [onDiscarded]

/-- Witness for C8 at a concrete full queue. -/
theorem c8_discard_newest_rejects_incoming_witness :
    push (⟨⟨Discard.DISCARD_NEWEST, Control.NO_CONTROL, 1⟩, [7], QStatus.FULL,
        true, true, []⟩ : QueueState Nat) 9 [] true =
      PushRes.ret false (onDiscarded (⟨⟨Discard.DISCARD_NEWEST, Control.NO_CONTROL, 1⟩,
        [7], QStatus.FULL, true, true, []⟩ : QueueState Nat) 9) ∧
    (onDiscarded (⟨⟨Discard.DISCARD_NEWEST, Control.NO_CONTROL, 1⟩, [7],
        QStatus.FULL, true, true, []⟩ : QueueState Nat) 9).queue =
      (⟨⟨Discard.DISCARD_NEWEST, Control.NO_CONTROL, 1⟩, [7], QStatus.FULL,
        true, true, []⟩ : QueueState Nat).queue :=
  c8_discard_newest_rejects_incoming _ 9 [] true rfl rfl rfl

/-- C9: a push into a Full, push-open NoDiscard queue with a finite
timeout waits on the predicate "(!pushOpen) || status != Full"; under gate
interference only (the status cannot change), every such push returns
false — by timing out, or because the wait succeeded only through the
push gate closing — and the buffer and discard log are unchanged. -/
theorem c9_nodiscard_full_push_fails (s : QueueState α) (v : α)
    (events : List GEvent) (hop : s.open_push = true)
    (hfull : s.status = QStatus.FULL)
    (hnd : s.settings.discard = Discard.NO_DISCARD) :
    ∃ s', push s v events true = PushRes.ret false s' ∧ s'.queue = s.queue ∧
      s'.discarded = s.discarded := by
  cases hw : waitToPush s events true with
  | failed u =>
      obtain ⟨f1, f2, f3, f4⟩ := waitToPush_fields s events true u (Or.inr (Or.inl hw))
      exact ⟨u, by simp [push, hw], f1, f4⟩
  | proceed u =>
      exact absurd hw (fun hw => waitToPush_full_no_proceed s u events true hop hfull hnd hw)
  | hang u =>
      exact absurd hw (fun hw => waitToPush_no_hang s u events hw)

/-- Witness for C9 at a concrete full queue with an immediate deadline. -/
theorem c9_nodiscard_full_push_fails_witness :
    ∃ s', push (⟨⟨Discard.NO_DISCARD, Control.NO_CONTROL, 1⟩, [7], QStatus.FULL,
        true, true, []⟩ : QueueState Nat) 9 [] true = PushRes.ret false s' ∧
      s'.queue = (⟨⟨Discard.NO_DISCARD, Control.NO_CONTROL, 1⟩, [7], QStatus.FULL,
        true, true, []⟩ : QueueState Nat).queue ∧
      s'.discarded = (⟨⟨Discard.NO_DISCARD, Control.NO_CONTROL, 1⟩, [7],
        QStatus.FULL, true, true, []⟩ : QueueState Nat).discarded :=
  c9_nodiscard_full_push_fails _ 9 [] rfl rfl rfl

/-- C10: pop can get past its wait phase with an empty buffer.  On a queue
whose control policy is PUSH (pop gate pinned open, push gate starting
closed), the very first pop finds the wait predicate already true (it
reads the push gate) and proceeds to take the front of the empty deque —
undefined behaviour — contradicting the claim that waitToPop returning
true implies a non-empty buffer. -/
theorem c10_pop_empty_buffer_ub :
    pop (mkQueue Nat ⟨Discard.NO_DISCARD, Control.PUSH, 10⟩) [] true =
      PopRes.ub :=
  rfl

end ThreadSafe
